import Mathlib

/-!
Shallow embedding of the WAL subsystem of `hrimdb/cibo` and proofs about it.

The embedded code comes from `src/db/log_writer.rs`, `src/util/file_reader_writer.rs`
and `src/env/io_posix.rs`. Modules of the repository that those files use but that are
not in the source tree (`db/log_format.rs`, `util/coding.rs`, `util/hash.rs`,
`util/status.rs`, `util/aligned_buffer.rs`) are modelled from the specification and
carry a doc comment saying so.

Byte values are `Nat` (the writer only ever produces values `< 256` in header
positions; payload bytes are opaque). Fallible collaborator calls (the destination
file's `append`/`flush`, `pwrite`, `range_sync`, ...) are driven by an explicit
oracle: a list of `Bool` outcomes consumed in call order, an empty list standing for
an always-succeeding collaborator. Rust `assert!` failures are modelled by an
`Option` result, `none` meaning the assertion fired (a panic).
-/

namespace Cibo

/-- Modelled from the spec: the status type of `util/status.rs` (not in the source
tree). Only the distinction success / I/O error / corruption is observable in the
embedded code, so messages are dropped. -/
inductive State where
  | ok
  | ioError
  | corruption
deriving DecidableEq, Repr

def State.is_ok : State → Bool
  | .ok => true
  | _ => false

/-- Modelled from the spec: block size of the log format (`db/log_format.rs` is not
in the source tree; the spec fixes BLOCK_SIZE = 32768). -/
def kBlockSize : Nat := 32768

/-- Modelled from the spec: legacy header size, 7 bytes. -/
def kHeaderSize : Nat := 7

/-- Modelled from the spec: recyclable header size, 11 bytes. -/
def kRecyclableHeaderSize : Nat := 11

/-- Modelled from the spec: the largest record-type value (RecyclableLast = 8). -/
def kMaxRecordType : Nat := 8

/-- Modelled from the spec: record types of the log format with their wire values
Zero=0, Full=1, First=2, Middle=3, Last=4, RecyclableFull=5, RecyclableFirst=6,
RecyclableMiddle=7, RecyclableLast=8. -/
inductive RecordType where
  | kZeroType
  | kFullType
  | kFirstType
  | kMiddleType
  | kLastType
  | kRecyclableFullType
  | kRecyclableFirstType
  | kRecyclableMiddleType
  | kRecyclableLastType
deriving DecidableEq, Repr

def RecordType.toNat : RecordType → Nat
  | .kZeroType => 0
  | .kFullType => 1
  | .kFirstType => 2
  | .kMiddleType => 3
  | .kLastType => 4
  | .kRecyclableFullType => 5
  | .kRecyclableFirstType => 6
  | .kRecyclableMiddleType => 7
  | .kRecyclableLastType => 8

/-- Modelled from the spec: 4-byte little-endian fixed-width encoding
(`util/coding.rs::encode_fixed32`, not in the source tree). -/
def encode_fixed32 (v : Nat) : List Nat :=
  [v % 256, v / 256 % 256, v / 65536 % 256, v / 16777216 % 256]

/-- Modelled from the spec: 8-byte little-endian fixed-width encoding
(`util/coding.rs::encode_fixed64`, not in the source tree). -/
def encode_fixed64 (v : Nat) : List Nat :=
  [v % 256, v / 2 ^ 8 % 256, v / 2 ^ 16 % 256, v / 2 ^ 24 % 256,
   v / 2 ^ 32 % 256, v / 2 ^ 40 % 256, v / 2 ^ 48 % 256, v / 2 ^ 56 % 256]

/-- Modelled from the spec: the spec treats the checksum primitive as an opaque
function `crc32(seed, bytes) -> u32` (`util/hash.rs` is not in the source tree).
General theorems quantify over an arbitrary checksum function; this concrete
stand-in is used only to instantiate counterexamples and witnesses. -/
def crc32model (seed : Nat) (bytes : List Nat) : Nat :=
  bytes.foldl (fun a b => (a * 131 + b + 17) % 4294967296) seed

/-- The per-type checksum seed table built in `Writer::new`:
`type_crc_[x] = crc32(0, [x])`. -/
def type_crc (crc32 : Nat → List Nat → Nat) (t : RecordType) : Nat :=
  crc32 0 [t.toNat]

/-- Consume one outcome from a collaborator oracle; an exhausted oracle keeps
succeeding. -/
def takeOut : List Bool → Bool × List Bool
  | [] => (true, [])
  | b :: r => (b, r)

/-- One observable effect of `Writer::add_record` on its destination writer:
either a zero-padding append at block offset `bo` (with its outcome), or one
`emit_physical_record` call at accounted block offset `bo`, record type `t`,
declared fragment length `n`, with the header bytes built, the full slice `ptr`
passed to `dest_.append`, and the outcomes of the header append, the payload
append and the optional manual flush. -/
inductive WalEv where
  | padWrite (bo : Nat) (bytes : List Nat) (ok : Bool)
  | frame (bo : Nat) (t : RecordType) (n : Nat) (header : List Nat) (ptr : List Nat)
      (hOk : Bool) (pOk : Bool) (flOk : Bool)
deriving DecidableEq, Repr

/-- The bytes a `WalEv` actually put into the destination writer. -/
def WalEv.written : WalEv → List Nat
  | .padWrite _ bs ok => if ok then bs else []
  | .frame _ _ _ header ptr hOk pOk _ =>
      if hOk then header ++ (if pOk then ptr else []) else []

/-- The header bytes of a frame event (empty for a pad event). -/
def WalEv.hdr : WalEv → List Nat
  | .frame _ _ _ header _ _ _ _ => header
  | _ => []

/-- All bytes a list of events put into the destination writer, in order. -/
def fileBytes (evs : List WalEv) : List Nat :=
  (evs.map WalEv.written).flatten

/-- Result of one `Writer::emit_physical_record` call. -/
structure EmitRes where
  ev : WalEv
  s : State
  bo : Nat
  outs : List Bool
deriving DecidableEq, Repr

/-- `Writer::emit_physical_record` from `src/db/log_writer.rs` lines 121-155.
Builds the 11-byte scratch header `buf`, fills length (2 bytes, LE cast of `n`),
type byte, and for recyclable types the low 4 bytes of `encode_fixed64(log_number_)`;
seeds the checksum from `type_crc_`, extends it over `buf[4..11]` for recyclable
types and then over the whole `ptr` vector; stores it LE in `buf[..4]`; appends
`buf[..header_size]` and then `ptr` (the entire vector passed in, not `n` bytes)
to the destination, flushing if `manual_flush_`; finally advances `block_offset_`
by `header_size + n` unconditionally. -/
def emit_physical_record (crc32 : Nat → List Nat → Nat) (log_number_ : Nat)
    (manual_flush_ : Bool) (t : RecordType) (ptr : List Nat) (n : Nat)
    (block_offset_ : Nat) (outs : List Bool) : EmitRes :=
  let buf0 : List Nat := List.replicate kRecyclableHeaderSize 0
  let crc0 := type_crc crc32 t
  let buf1 := ((buf0.set 4 (n % 256)).set 5 (n / 256 % 256)).set 6 t.toNat
  let hbc : Nat × List Nat × Nat :=
    if t.toNat < RecordType.kRecyclableFullType.toNat then
      (kHeaderSize, buf1, crc0)
    else
      let ln := encode_fixed64 log_number_
      let buf2 := (((buf1.set 7 (ln.getD 0 0)).set 8 (ln.getD 1 0)).set 9
        (ln.getD 2 0)).set 10 (ln.getD 3 0)
      (kRecyclableHeaderSize, buf2, crc32 crc0 ((buf2.drop 4).take 7))
  let header_size := hbc.1
  let crc := crc32 hbc.2.2 ptr
  let enc := encode_fixed32 crc
  let buf3 := (((hbc.2.1.set 0 (enc.getD 0 0)).set 1 (enc.getD 1 0)).set 2
    (enc.getD 2 0)).set 3 (enc.getD 3 0)
  let header := buf3.take header_size
  let ho := takeOut outs
  let po := if ho.1 then takeOut ho.2 else (false, ho.2)
  let fo := if ho.1 && po.1 && manual_flush_ then takeOut po.2 else (false, po.2)
  let s : State :=
    if ho.1 then
      if po.1 then
        if manual_flush_ then (if fo.1 then .ok else .ioError) else .ok
      else .ioError
    else .ioError
  { ev := .frame block_offset_ t n header ptr ho.1 po.1 fo.1
    s := s
    bo := block_offset_ + header_size + n
    outs := fo.2 }

/-- Result of one `Writer::add_record` call: the events issued to the destination,
the final `block_offset_`, the rest of the oracle, and a marker that the
iteration fuel never ran out (`addRecordGo_fueled` proves it never does for the
fuel `add_record` supplies). -/
structure AddRes where
  evs : List WalEv
  bo : Nat
  outs : List Bool
  fueled : Bool
deriving DecidableEq, Repr

/-- The legacy or recyclable variant of the `Full` classification, exactly as
`add_record` selects it. -/
def fullT (recycle : Bool) : RecordType :=
  if recycle then .kRecyclableFullType else .kFullType

/-- The legacy or recyclable variant of the `First` classification. -/
def firstT (recycle : Bool) : RecordType :=
  if recycle then .kRecyclableFirstType else .kFirstType

/-- The legacy or recyclable variant of the `Middle` classification. -/
def middleT (recycle : Bool) : RecordType :=
  if recycle then .kRecyclableMiddleType else .kMiddleType

/-- The legacy or recyclable variant of the `Last` classification. -/
def lastT (recycle : Bool) : RecordType :=
  if recycle then .kRecyclableLastType else .kLastType

/-- The body of one `add_record` loop iteration after the block-boundary
handling (`src/db/log_writer.rs` lines 79-117), starting at block offset `bo2`:
compute `avail` and `fragment_length = min(left, avail)`, classify from
`begin`/`end`, call `emit_physical_record` with the whole remaining slice and
`fragment_length`, then continue through `rec` (the rest of the loop) while the
status is ok and bytes remain. The zero-pad event, if any, is prepended by
`addRecordGo`. -/
def addRecordStep (crc32 : Nat → List Nat → Nat) (recycle_log_files_ : Bool)
    (manual_flush_ : Bool) (log_number_ : Nat)
    (rec : List Nat → Nat → List Bool → AddRes)
    (ptr : List Nat) (first : Bool) (bo2 : Nat) (outs2 : List Bool) : AddRes :=
  let header_size := if recycle_log_files_ then kRecyclableHeaderSize else kHeaderSize
  let avail := kBlockSize - bo2 - header_size
  let fragment_length := min ptr.length avail
  let endB : Bool := ptr.length == fragment_length
  let rtype : RecordType :=
    if first && endB then fullT recycle_log_files_
    else if first then firstT recycle_log_files_
    else if endB then lastT recycle_log_files_
    else middleT recycle_log_files_
  let er := emit_physical_record crc32 log_number_ manual_flush_ rtype ptr
    fragment_length bo2 outs2
  let ptr2 := ptr.drop fragment_length
  if er.s.is_ok && decide (0 < ptr2.length) then
    let rest := rec ptr2 er.bo er.outs
    ⟨er.ev :: rest.evs, rest.bo, rest.outs, rest.fueled⟩
  else ⟨[er.ev], er.bo, er.outs, true⟩

/-- The loop of `Writer::add_record` from `src/db/log_writer.rs` lines 47-119,
one fuel unit per iteration. Per iteration: if `leftover = kBlockSize - block_offset_`
is smaller than the header size, append `leftover` zero bytes when `leftover > 0`
(breaking on failure before the reset) and reset `block_offset_` to 0; then run
`addRecordStep`, which emits the fragment and recurses while bytes remain. -/
def addRecordGo (crc32 : Nat → List Nat → Nat) (recycle_log_files_ : Bool)
    (manual_flush_ : Bool) (log_number_ : Nat) :
    Nat → List Nat → Bool → Nat → List Bool → AddRes
  | 0, _, _, bo, outs => ⟨[], bo, outs, false⟩
  | fuel + 1, ptr, first, bo, outs =>
    let header_size := if recycle_log_files_ then kRecyclableHeaderSize else kHeaderSize
    let leftover := kBlockSize - bo
    let step := addRecordStep crc32 recycle_log_files_ manual_flush_ log_number_
      (fun ptr2 bo2 outs2 =>
        addRecordGo crc32 recycle_log_files_ manual_flush_ log_number_ fuel ptr2 false bo2 outs2)
      ptr first
    if leftover < header_size then
      if 0 < leftover then
        let po := takeOut outs
        if po.1 then
          let a := step 0 po.2
          ⟨.padWrite bo (List.replicate leftover 0) true :: a.evs, a.bo, a.outs, a.fueled⟩
        else ⟨[.padWrite bo (List.replicate leftover 0) false], bo, po.2, true⟩
      else step 0 outs
    else step bo outs

/-- `Writer::add_record`. The fuel `2 * slice.length + 2` strictly dominates the
loop's termination measure `2 * left + (1 if a header still fits in the current
block else 0)`, which decreases every iteration, so the fuel never runs out
(`addRecordGo_fueled`). -/
def add_record (crc32 : Nat → List Nat → Nat) (recycle_log_files_ : Bool)
    (manual_flush_ : Bool) (log_number_ : Nat) (slice : List Nat) (block_offset_ : Nat)
    (outs : List Bool) : AddRes :=
  addRecordGo crc32 recycle_log_files_ manual_flush_ log_number_
    (2 * slice.length + 2) slice true block_offset_ outs

/-- Modelled from the spec: the aligned buffer of `util/aligned_buffer.rs` (not in
the source tree): a byte buffer with an alignment, a capacity and a tracked write
cursor; `data` is the current contents, so the current size is `data.length`. -/
structure AlignedBuffer where
  alignment_ : Nat
  capacity_ : Nat
  data : List Nat
deriving DecidableEq, Repr

def AlignedBuffer.get_capacity (b : AlignedBuffer) : Nat := b.capacity_

def AlignedBuffer.get_current_size (b : AlignedBuffer) : Nat := b.data.length

def AlignedBuffer.get_alignment (b : AlignedBuffer) : Nat := b.alignment_

/-- Modelled from the spec: append copies at most the free capacity and reports
how many bytes were copied. -/
def AlignedBuffer.append (b : AlignedBuffer) (src : List Nat) (size : Nat) :
    AlignedBuffer × Nat :=
  let tocopy := min (b.capacity_ - b.data.length) size
  ({ b with data := b.data ++ src.take tocopy }, tocopy)

/-- Modelled from the spec: read `len` bytes of the buffer starting at `offset`
(the code only ever reads from the buffer start). -/
def AlignedBuffer.read (b : AlignedBuffer) (offset len : Nat) : List Nat :=
  (b.data.drop offset).take len

/-- Modelled from the spec: set the tracked size (only ever used to shrink). -/
def AlignedBuffer.size (b : AlignedBuffer) (n : Nat) : AlignedBuffer :=
  { b with data := b.data.take n }

/-- Modelled from the spec: reallocation with data preservation. -/
def AlignedBuffer.allocate_new_buffer (b : AlignedBuffer) (cap : Nat) (copy : Bool) :
    AlignedBuffer :=
  { b with capacity_ := cap, data := if copy then b.data.take cap else [] }

/-- Modelled from the spec: pad the contents up to the next alignment multiple
(the source spells it `pad_to_aligment_with`). -/
def AlignedBuffer.pad_to_aligment_with (b : AlignedBuffer) (v : Nat) : AlignedBuffer :=
  { b with data :=
      b.data ++ List.replicate ((b.alignment_ - b.data.length % b.alignment_) % b.alignment_) v }

/-- Modelled from the spec: keep only the unaligned tail, moved to the front. -/
def AlignedBuffer.refit_tail (b : AlignedBuffer) (tail_offset tail_size : Nat) :
    AlignedBuffer :=
  { b with data := (b.data.drop tail_offset).take tail_size }

/-- Modelled from the spec: `util/aligned_buffer.rs::truncate_to_page_boundary`,
the largest page-aligned prefix length. -/
def truncate_to_page_boundary (page_size s : Nat) : Nat := s - s % page_size

/-- The underlying `WritableFile` as the `WritableFileWriter` sees it: its
direct-I/O flag and an oracle of outcomes for its fallible calls, consumed in
call order. -/
structure FileEnv where
  useDirect : Bool
  outs : List Bool
deriving DecidableEq, Repr

/-- State of `util/file_reader_writer.rs::WritableFileWriter` (the generic `T` is
replaced by `FileEnv`). -/
structure WritableFileWriter where
  filesize_ : Nat
  max_buffer_size_ : Nat
  pending_sync_ : Bool
  buf_ : AlignedBuffer
  bytes_per_sync_ : Nat
  last_sync_size_ : Nat
  next_write_offset_ : Nat
deriving DecidableEq, Repr

/-- `WritableFileWriter::write_buffered` from `src/util/file_reader_writer.rs`
lines 174-199. It asserts `use_direct_io()` (`none` when the assertion fires),
then issues the whole remaining data as one `writable_file_.append` call
(`allowed = left`), returning any error, and finally clears the buffer size. -/
def write_buffered (st : WritableFileWriter) (env : FileEnv) (_data : List Nat)
    (size : Nat) : Option (State × WritableFileWriter × FileEnv) :=
  if env.useDirect then
    if size = 0 then some (.ok, { st with buf_ := st.buf_.size 0 }, env)
    else
      let o := takeOut env.outs
      let env1 : FileEnv := { env with outs := o.2 }
      if o.1 then some (.ok, { st with buf_ := st.buf_.size 0 }, env1)
      else some (.ioError, st, env1)
  else none

/-- `WritableFileWriter::write_direct` from `src/util/file_reader_writer.rs`
lines 226-267. Asserts direct I/O and an aligned `next_write_offset_`; truncates
the buffered length to the page boundary, pads the buffer to alignment, issues
one `positioned_append` of the whole padded contents at `next_write_offset_`
(the source loop runs once, with `size = left`); on failure restores the buffer
size and returns the error; on success keeps only the unaligned tail and sets
`next_write_offset_` to `file_advance` (as the source does). -/
def write_direct (st : WritableFileWriter) (env : FileEnv) :
    Option (State × WritableFileWriter × FileEnv) :=
  if !env.useDirect then none
  else
    let alignment := st.buf_.get_alignment
    if st.next_write_offset_ % alignment ≠ 0 then none
    else
      let file_advance := truncate_to_page_boundary alignment st.buf_.get_current_size
      let leftover_tail := st.buf_.get_current_size - file_advance
      let buf1 := st.buf_.pad_to_aligment_with 0
      let o := takeOut env.outs
      let env1 : FileEnv := { env with outs := o.2 }
      if o.1 then
        some (.ok, { st with buf_ := buf1.refit_tail file_advance leftover_tail,
                             next_write_offset_ := file_advance }, env1)
      else
        some (.ioError, { st with buf_ := buf1.size (file_advance + leftover_tail) }, env1)

/-- Result of one `WritableFileWriter::flush` call: the returned status, the new
writer state, the rest of the oracle, and the `range_sync` call issued by the
sync-cadence policy, if any, as `(offset, nbytes)`. -/
structure FlushRes where
  s : State
  st : WritableFileWriter
  env : FileEnv
  sync : Option (Nat × Nat)
deriving DecidableEq, Repr

/-- The tail of `WritableFileWriter::flush` after the buffered data has been
written out: `writable_file_.flush()`, then the `bytes_per_sync_` range-sync
policy of `src/util/file_reader_writer.rs` lines 148-166 (`none` when the
`offset_sync_to >= last_sync_size_` assertion fires). -/
def flushTail (st : WritableFileWriter) (env : FileEnv) : Option FlushRes :=
  let o := takeOut env.outs
  let env1 : FileEnv := { env with outs := o.2 }
  if !o.1 then some ⟨.ioError, st, env1, none⟩
  else if !env1.useDirect && decide (0 < st.bytes_per_sync_) then
    if 1048576 < st.filesize_ then
      let ost := st.filesize_ - 1048576
      let offset_sync_to := ost - ost % 4096
      if offset_sync_to < st.last_sync_size_ then none
      else if 0 < offset_sync_to ∧ st.bytes_per_sync_ ≤ offset_sync_to - st.last_sync_size_ then
        let o2 := takeOut env1.outs
        some ⟨if o2.1 then .ok else .ioError,
              { st with last_sync_size_ := offset_sync_to },
              { env1 with outs := o2.2 },
              some (st.last_sync_size_, offset_sync_to - st.last_sync_size_)⟩
      else some ⟨.ok, st, env1, none⟩
    else some ⟨.ok, st, env1, none⟩
  else some ⟨.ok, st, env1, none⟩

/-- `WritableFileWriter::flush` from `src/util/file_reader_writer.rs` lines
115-168: if the buffer holds data, write it via `write_direct` (direct I/O) or
`write_buffered` (buffered), returning any error; then `writable_file_.flush()`
and the range-sync policy (`flushTail`). -/
def flush (st : WritableFileWriter) (env : FileEnv) : Option FlushRes :=
  if 0 < st.buf_.get_current_size then
    match (if env.useDirect then write_direct st env
           else write_buffered st env (st.buf_.read 0 st.buf_.get_current_size)
             st.buf_.get_current_size) with
    | none => none
    | some (s1, st1, env1) =>
      if s1.is_ok then flushTail st1 env1 else some ⟨s1, st1, env1, none⟩
  else flushTail st env

/-- The buffer-growth loop of `WritableFileWriter::append` lines 55-69: double
the capacity up to `max_buffer_size_`, stopping at the first capacity whose free
space fits the incoming data (or at the maximum under direct I/O). One fuel unit
per doubling; the capacity at least doubles per iteration, so any fuel above
`log2 max_buffer_size_` is exact (capacity 0 never occurs: the constructor
allocates 65536). -/
def growGo (env : FileEnv) (left maxb : Nat) :
    Nat → Nat → AlignedBuffer → AlignedBuffer
  | 0, _, buf => buf
  | f + 1, cap, buf =>
    if cap < maxb then
      let desired := min (cap * 2) maxb
      if left ≤ desired - buf.get_current_size || (env.useDirect && desired == maxb) then
        buf.allocate_new_buffer desired true
      else growGo env left maxb f (cap * 2) buf
    else buf

/-- The copy-and-flush loop of `WritableFileWriter::append` lines 89-99, one
fuel unit per iteration: copy into the buffer, and if bytes remain, flush and
continue unless the flush failed. Every two iterations make progress, so the
fuel `2 * left + 2` supplied by `append` never runs out on the paths the
theorems evaluate. -/
def appendLoopGo (slice : List Nat) :
    Nat → Nat → Nat → WritableFileWriter → FileEnv →
    Option (State × WritableFileWriter × FileEnv)
  | 0, _, _, _, _ => none
  | f + 1, src, left, st, env =>
    if left = 0 then some (.ok, st, env)
    else
      let ba := st.buf_.append (slice.drop src) left
      let st1 : WritableFileWriter := { st with buf_ := ba.1 }
      let left1 := left - ba.2
      let src1 := src + ba.2
      if 0 < left1 then
        match flush st1 env with
        | none => none
        | some fr =>
          if fr.s.is_ok then appendLoopGo slice f src1 left1 fr.st fr.env
          else some (fr.s, fr.st, fr.env)
      else some (.ok, st1, env)

/-- Result of one `WritableFileWriter::append` call: the status the caller gets
and the new state. -/
structure AppendRes where
  s : State
  st : WritableFileWriter
  env : FileEnv
deriving DecidableEq, Repr

/-- `WritableFileWriter::append` from `src/util/file_reader_writer.rs` lines
45-109: set `pending_sync_`, notify `prepare_write` (no modelled effect), grow
the buffer if its free space is short, flush first in buffered mode when still
short (this error is returned), then either copy-and-flush through the buffer
(direct I/O or data no larger than the capacity) or bypass via `write_buffered`;
advance `filesize_` only if the internal status is ok — and finally return
`State::ok()` unconditionally, as the source does on line 108. -/
def append (st0 : WritableFileWriter) (env0 : FileEnv) (slice : List Nat) :
    Option AppendRes :=
  let left := slice.length
  let st : WritableFileWriter := { st0 with pending_sync_ := true }
  let grown := growGo env0 left st.max_buffer_size_ (st.max_buffer_size_ + 2)
    st.buf_.get_capacity st.buf_
  let st1 : WritableFileWriter :=
    if st.buf_.get_capacity - st.buf_.get_current_size < left then
      { st with buf_ := grown }
    else st
  let afterEarly : Option (Option AppendRes ⊕ (WritableFileWriter × FileEnv)) :=
    if !env0.useDirect && decide (st1.buf_.get_capacity - st1.buf_.get_current_size < left) then
      if 0 < st1.buf_.get_current_size then
        match flush st1 env0 with
        | none => none
        | some fr =>
          if fr.s.is_ok then
            if fr.st.buf_.get_current_size = 0 then some (.inr (fr.st, fr.env)) else none
          else some (.inl (some ⟨fr.s, fr.st, fr.env⟩))
      else if st1.buf_.get_current_size = 0 then some (.inr (st1, env0)) else none
    else some (.inr (st1, env0))
  match afterEarly with
  | none => none
  | some (.inl r) => r
  | some (.inr (st2, env2)) =>
    let main : Option (State × WritableFileWriter × FileEnv) :=
      if env2.useDirect || decide (left ≤ st2.buf_.get_capacity) then
        appendLoopGo slice (2 * left + 2) 0 left st2 env2
      else
        if st2.buf_.get_current_size = 0 then write_buffered st2 env2 slice left
        else none
    match main with
    | none => none
    | some (s, st3, env3) =>
      let st4 : WritableFileWriter :=
        if s.is_ok then { st3 with filesize_ := st3.filesize_ + slice.length } else st3
      some ⟨.ok, st4, env3⟩

/-- One outcome of the raw `pwrite` syscall as `PosixWritableFile::positioned_append`
sees it: a positive return value, an interrupted syscall (return below 1 with
`errno = EINTR`), or any other failure (return below 1, `errno` anything else). -/
inductive Pw where
  | wrote (n : Nat)
  | interrupted
  | failed
deriving DecidableEq, Repr

/-- Result of `PosixWritableFile::positioned_append`: success sets `filesize_`
to the final offset; `ioError` is the non-interrupt failure return; `stuck`
marks runs the oracle does not determine (exhausted oracle, or a `wrote 0`
whose errno the oracle does not carry). -/
inductive PAResult where
  | success (filesize : Nat)
  | ioError
  | stuck
deriving DecidableEq, Repr

/-- The loop of `PosixWritableFile::positioned_append` from `src/env/io_posix.rs`
lines 274-312: while bytes remain, `pwrite` the remaining `left` bytes at
`offset`; a return below 1 with `errno = EINTR` retries with the same arguments;
any other return below 1 is an I/O error; otherwise advance `offset` and the
source pointer by `done` and shrink `left`. Each issued call is recorded in the
trace as `(offset, left)`. -/
def paGo : List Pw → Nat → Nat → List (Nat × Nat) × PAResult
  | _, 0, off => ([], .success off)
  | [], _ + 1, _ => ([], .stuck)
  | op :: ops, l + 1, off =>
    match op with
    | .wrote n =>
      if n = 0 then ([(off, l + 1)], .stuck)
      else
        let r := paGo ops (l + 1 - n) (off + n)
        ((off, l + 1) :: r.1, r.2)
    | .interrupted =>
      let r := paGo ops (l + 1) off
      ((off, l + 1) :: r.1, r.2)
    | .failed => ([(off, l + 1)], .ioError)

/-- `PosixWritableFile::positioned_append` on `data` at `offset`, driven by the
syscall oracle `ops`. -/
def positioned_append (ops : List Pw) (data : List Nat) (offset : Nat) :
    List (Nat × Nat) × PAResult :=
  paGo ops data.length offset

/-- Well-formedness of a `pwrite` oracle for a run of `paGo` on `left` bytes:
every successful write is of at least one and at most the remaining bytes
(`pwrite` never reports more than it was asked to write). -/
def paWF : List Pw → Nat → Bool
  | _, 0 => true
  | [], _ + 1 => true
  | .wrote n :: ops, l + 1 => decide (1 ≤ n) && decide (n ≤ l + 1) && paWF ops (l + 1 - n)
  | .interrupted :: ops, l + 1 => paWF ops (l + 1)
  | .failed :: _, _ + 1 => true

/-- The header size `emit_physical_record` selects from the record type. -/
def headerSizeFor (t : RecordType) : Nat :=
  if t.toNat < RecordType.kRecyclableFullType.toNat then kHeaderSize
  else kRecyclableHeaderSize

/-- The declared fragment length and the number of payload bytes handed to the
destination, per frame event. -/
def fragDecl : WalEv → Option (Nat × Nat)
  | .frame _ _ n _ p _ _ _ => some (n, p.length)
  | _ => none

/-- The record types of the frame events, in emission order. -/
def frameTypes (evs : List WalEv) : List RecordType :=
  evs.filterMap fun ev =>
    match ev with
    | .frame _ t _ _ _ _ _ _ => some t
    | _ => none

/-- The fragment-type sequence the spec prescribes for a record split into `k`
frames: one `Full`, or `First`, `Middle`s, `Last`. -/
def expectedTypes (recycle : Bool) : Nat → List RecordType
  | 0 => []
  | 1 => [fullT recycle]
  | k + 2 => firstT recycle :: (List.replicate k (middleT recycle) ++ [lastT recycle])

/-- The checksum the code actually stores for a frame (proved equal to the
stored field in the C2 theorem): the `type_crc_` seed, extended for recyclable
types over header bytes 4..10 (length LE, type byte, low 4 log-number bytes)
and then over the whole payload vector passed to `emit_physical_record`. -/
def code_crc (crc32 : Nat → List Nat → Nat) (ln : Nat) (t : RecordType)
    (ptr : List Nat) (n : Nat) : Nat :=
  if t.toNat < RecordType.kRecyclableFullType.toNat then
    crc32 (type_crc crc32 t) ptr
  else
    crc32 (crc32 (type_crc crc32 t)
      ([n % 256, n / 256 % 256, t.toNat] ++ (encode_fixed64 ln).take 4)) ptr

/-- The checksum formula as claim C2 words it: seeded with the precomputed type
checksum, then extended over the record-type byte, the 2-byte payload length,
the 4-byte log-file number if recyclable, and the fragment payload bytes. -/
def spec_claimed_crc (crc32 : Nat → List Nat → Nat) (ln : Nat) (t : RecordType)
    (frag : List Nat) (n : Nat) : Nat :=
  crc32 (type_crc crc32 t)
    ([t.toNat, n % 256, n / 256 % 256]
      ++ (if RecordType.kRecyclableFullType.toNat ≤ t.toNat then (encode_fixed64 ln).take 4 else [])
      ++ frag)

/-- An empty 4 KiB-aligned buffer of capacity 65536, as `WritableFileWriter::new`
allocates it. -/
def freshBuf : AlignedBuffer := ⟨4096, 65536, []⟩

/-- A `WritableFileWriter` as constructed by `new` with
`writable_file_max_buffer_size = 65536` and `bytes_per_sync = 0`. -/
def freshWriter : WritableFileWriter := ⟨0, 65536, false, freshBuf, 0, 0, 0⟩

/-- A buffered-mode writer state used for the C8 witness: empty buffer,
`bytes_per_sync_ = 4096`, 3 MiB already written, nothing synced yet. -/
def syncWriter : WritableFileWriter := ⟨3145728, 65536, false, freshBuf, 4096, 0, 0⟩

/-- The result of one `flush` on `syncWriter` with an always-succeeding file:
a range-sync of bytes [0, 2 MiB) and `last_sync_size_` advanced to 2 MiB. -/
def syncFlushRes : FlushRes :=
  ⟨.ok, { syncWriter with last_sync_size_ := 2097152 }, ⟨false, []⟩, some (0, 2097152)⟩

/-- A `pwrite` oracle used for the C9 witness: an interrupt, a 2-byte write, an
interrupt, a 1-byte write. -/
def paOpsExample : List Pw := [.interrupted, .wrote 2, .interrupted, .wrote 1]

/-- The header size `add_record` computes from the recycle flag. -/
def hsz (r : Bool) : Nat := if r then kRecyclableHeaderSize else kHeaderSize

/-- One unit of the `add_record` loop termination measure: whether a header
still fits in the current block. -/
def boBit (r : Bool) (bo : Nat) : Nat := if kBlockSize - bo < hsz r then 0 else 1

/-- The C4 property of a pad event: it wrote exactly the (positive, smaller
than a header) leftover of the current block as zeros. -/
def PadOk (r : Bool) : WalEv → Prop
  | .padWrite bo2 bs _ => bs = List.replicate (kBlockSize - bo2) 0
      ∧ 0 < kBlockSize - bo2 ∧ kBlockSize - bo2 < hsz r
  | .frame _ _ _ _ _ _ _ _ => True

/-- The C4 property of a frame event: the accounted block offset plus header
plus declared fragment length stays within the block. -/
def FrameOk (r : Bool) : WalEv → Prop
  | .frame bo2 _ n _ _ _ _ _ => bo2 + hsz r + n ≤ kBlockSize
  | .padWrite _ _ _ => True

/-- Every successful pad event is immediately followed by a frame emitted at
block offset 0: the writer reset `block_offset_` right after padding. -/
def PadAdj (evs : List WalEv) : Prop :=
  ∀ i bo2 bs, evs.get? i = some (.padWrite bo2 bs true) →
    ∃ t n hd p a b cc, evs.get? (i + 1) = some (.frame 0 t n hd p a b cc)

end Cibo

namespace Cibo

/-! ## Helper lemmas about the log-writer embedding -/

lemma hsz_bounds (r : Bool) : 7 ≤ hsz r ∧ hsz r ≤ 11 := by
  cases r <;> simp [hsz, kHeaderSize, kRecyclableHeaderSize]

lemma boBit_le (r : Bool) (bo : Nat) : boBit r bo ≤ 1 := by
  simp only [boBit]
  split <;> omega

lemma emit_s_nil (c : Nat → List Nat → Nat) (ln : Nat) (m : Bool) (t : RecordType)
    (ptr : List Nat) (n bo : Nat) :
    (emit_physical_record c ln m t ptr n bo []).s.is_ok = true := by
  cases m <;> simp [emit_physical_record, takeOut, State.is_ok]

lemma emit_outs_nil (c : Nat → List Nat → Nat) (ln : Nat) (m : Bool) (t : RecordType)
    (ptr : List Nat) (n bo : Nat) :
    (emit_physical_record c ln m t ptr n bo []).outs = [] := by
  cases m <;> simp [emit_physical_record, takeOut]

lemma emit_bo_eq (c : Nat → List Nat → Nat) (ln : Nat) (m : Bool) (t : RecordType)
    (ptr : List Nat) (n bo : Nat) (outs : List Bool) :
    (emit_physical_record c ln m t ptr n bo outs).bo = bo + headerSizeFor t + n := by
  simp only [emit_physical_record, headerSizeFor]
  split <;> rfl

lemma emit_ev_eq (c : Nat → List Nat → Nat) (ln : Nat) (m : Bool) (t : RecordType)
    (ptr : List Nat) (n bo : Nat) (outs : List Bool) :
    ∃ hdr hOk pOk flOk,
      (emit_physical_record c ln m t ptr n bo outs).ev = .frame bo t n hdr ptr hOk pOk flOk := by
  refine ⟨_, _, _, _, rfl⟩

lemma headerSizeFor_fullT (r : Bool) : headerSizeFor (fullT r) = hsz r := by cases r <;> rfl

lemma headerSizeFor_firstT (r : Bool) : headerSizeFor (firstT r) = hsz r := by cases r <;> rfl

lemma headerSizeFor_middleT (r : Bool) : headerSizeFor (middleT r) = hsz r := by cases r <;> rfl

lemma headerSizeFor_lastT (r : Bool) : headerSizeFor (lastT r) = hsz r := by cases r <;> rfl

lemma addRecordStep_done (c : Nat → List Nat → Nat) (r m : Bool) (ln : Nat)
    (rec : List Nat → Nat → List Bool → AddRes) (ptr : List Nat) (first : Bool)
    (bo2 : Nat) (outs2 : List Bool)
    (hfit : ptr.length ≤ kBlockSize - bo2 - hsz r) :
    addRecordStep c r m ln rec ptr first bo2 outs2
      = ⟨[(emit_physical_record c ln m (if first then fullT r else lastT r)
            ptr ptr.length bo2 outs2).ev],
         (emit_physical_record c ln m (if first then fullT r else lastT r)
            ptr ptr.length bo2 outs2).bo,
         (emit_physical_record c ln m (if first then fullT r else lastT r)
            ptr ptr.length bo2 outs2).outs, true⟩ := by
  have hmin : min ptr.length (kBlockSize - bo2 - hsz r) = ptr.length := min_eq_left hfit
  simp only [addRecordStep,
    show (if r = true then kRecyclableHeaderSize else kHeaderSize) = hsz r from rfl,
    hmin, beq_self_eq_true, List.drop_length]
  cases first <;> simp

lemma addRecordStep_more (c : Nat → List Nat → Nat) (r m : Bool) (ln : Nat)
    (rec : List Nat → Nat → List Bool → AddRes) (ptr : List Nat) (first : Bool)
    (bo2 : Nat) (outs2 : List Bool)
    (hlt : kBlockSize - bo2 - hsz r < ptr.length) :
    addRecordStep c r m ln rec ptr first bo2 outs2
      = (let er := emit_physical_record c ln m (if first then firstT r else middleT r)
            ptr (kBlockSize - bo2 - hsz r) bo2 outs2
         if er.s.is_ok then
           ⟨er.ev :: (rec (ptr.drop (kBlockSize - bo2 - hsz r)) er.bo er.outs).evs,
            (rec (ptr.drop (kBlockSize - bo2 - hsz r)) er.bo er.outs).bo,
            (rec (ptr.drop (kBlockSize - bo2 - hsz r)) er.bo er.outs).outs,
            (rec (ptr.drop (kBlockSize - bo2 - hsz r)) er.bo er.outs).fueled⟩
         else ⟨[er.ev], er.bo, er.outs, true⟩) := by
  have hmin : min ptr.length (kBlockSize - bo2 - hsz r) = kBlockSize - bo2 - hsz r :=
    min_eq_right (le_of_lt hlt)
  have hne : (ptr.length == kBlockSize - bo2 - hsz r) = false := by
    simp [Nat.ne_of_gt hlt]
  have hlen : 0 < (ptr.drop (kBlockSize - bo2 - hsz r)).length := by
    simp [List.length_drop]; omega
  simp only [addRecordStep,
    show (if r = true then kRecyclableHeaderSize else kHeaderSize) = hsz r from rfl,
    hmin, hne, Bool.false_and, Bool.if_false_left]
  cases first <;> simp only [Bool.and_false, if_false, Bool.false_eq_true, if_true,
      decide_eq_true_eq] <;>
    by_cases hok : (emit_physical_record c ln m
      (if true then firstT r else middleT r) ptr (kBlockSize - bo2 - hsz r) bo2 outs2).s.is_ok <;>
    simp_all

lemma addRecordGo_succ_nopad (c : Nat → List Nat → Nat) (r m : Bool) (ln fuel : Nat)
    (ptr : List Nat) (first : Bool) (bo : Nat) (outs : List Bool)
    (h : ¬ kBlockSize - bo < hsz r) :
    addRecordGo c r m ln (fuel + 1) ptr first bo outs
      = addRecordStep c r m ln
          (fun p2 b2 o2 => addRecordGo c r m ln fuel p2 false b2 o2) ptr first bo outs := by
  rw [show fuel + 1 = Nat.succ fuel from rfl, addRecordGo.eq_2]
  rw [if_neg (by simpa [hsz] using h)]

lemma addRecordGo_succ_pad0 (c : Nat → List Nat → Nat) (r m : Bool) (ln fuel : Nat)
    (ptr : List Nat) (first : Bool) (bo : Nat) (outs : List Bool)
    (h : kBlockSize - bo < hsz r) (h0 : kBlockSize - bo = 0) :
    addRecordGo c r m ln (fuel + 1) ptr first bo outs
      = addRecordStep c r m ln
          (fun p2 b2 o2 => addRecordGo c r m ln fuel p2 false b2 o2) ptr first 0 outs := by
  rw [show fuel + 1 = Nat.succ fuel from rfl, addRecordGo.eq_2]
  rw [if_pos (by simpa [hsz] using h), if_neg (by omega)]

lemma addRecordGo_succ_pad_ok (c : Nat → List Nat → Nat) (r m : Bool) (ln fuel : Nat)
    (ptr : List Nat) (first : Bool) (bo : Nat) (outs : List Bool)
    (h : kBlockSize - bo < hsz r) (h0 : 0 < kBlockSize - bo)
    (ho : (takeOut outs).1 = true) :
    addRecordGo c r m ln (fuel + 1) ptr first bo outs
      = ⟨.padWrite bo (List.replicate (kBlockSize - bo) 0) true ::
          (addRecordStep c r m ln
            (fun p2 b2 o2 => addRecordGo c r m ln fuel p2 false b2 o2)
            ptr first 0 (takeOut outs).2).evs,
         (addRecordStep c r m ln
            (fun p2 b2 o2 => addRecordGo c r m ln fuel p2 false b2 o2)
            ptr first 0 (takeOut outs).2).bo,
         (addRecordStep c r m ln
            (fun p2 b2 o2 => addRecordGo c r m ln fuel p2 false b2 o2)
            ptr first 0 (takeOut outs).2).outs,
         (addRecordStep c r m ln
            (fun p2 b2 o2 => addRecordGo c r m ln fuel p2 false b2 o2)
            ptr first 0 (takeOut outs).2).fueled⟩ := by
  rw [show fuel + 1 = Nat.succ fuel from rfl, addRecordGo.eq_2]
  rw [if_pos (by simpa [hsz] using h), if_pos h0, if_pos ho]

lemma addRecordGo_succ_pad_fail (c : Nat → List Nat → Nat) (r m : Bool) (ln fuel : Nat)
    (ptr : List Nat) (first : Bool) (bo : Nat) (outs : List Bool)
    (h : kBlockSize - bo < hsz r) (h0 : 0 < kBlockSize - bo)
    (ho : (takeOut outs).1 = false) :
    addRecordGo c r m ln (fuel + 1) ptr first bo outs
      = ⟨[.padWrite bo (List.replicate (kBlockSize - bo) 0) false], bo,
         (takeOut outs).2, true⟩ := by
  rw [show fuel + 1 = Nat.succ fuel from rfl, addRecordGo.eq_2]
  rw [if_pos (by simpa [hsz] using h), if_pos h0, if_neg (by simp [ho])]

lemma frameTypes_pad (bo : Nat) (bs : List Nat) (ok : Bool) (l : List WalEv) :
    frameTypes (.padWrite bo bs ok :: l) = frameTypes l := rfl

lemma frameTypes_emit_cons (c : Nat → List Nat → Nat) (ln : Nat) (m : Bool)
    (t : RecordType) (ptr : List Nat) (n bo : Nat) (outs : List Bool) (l : List WalEv) :
    frameTypes ((emit_physical_record c ln m t ptr n bo outs).ev :: l)
      = t :: frameTypes l := rfl

end Cibo

namespace Cibo

/-! ## Classification and framing invariants of the add_record loop -/

lemma frameTypes_tail (c : Nat → List Nat → Nat) (r m : Bool) (ln : Nat) :
    ∀ fuel (ptr : List Nat) (bo : Nat),
      2 * ptr.length + 1 + boBit r bo ≤ fuel → bo ≤ kBlockSize →
      ∃ k, frameTypes (addRecordGo c r m ln fuel ptr false bo []).evs
          = List.replicate k (middleT r) ++ [lastT r] := by
  intro fuel
  induction fuel with
  | zero => intro ptr bo h _; exact absurd h (by omega)
  | succ f ih =>
    intro ptr bo hf hbo
    have h7 := hsz_bounds r
    have hkb : kBlockSize = 32768 := rfl
    have hstep : ∀ (bo2 : Nat),
        hsz r ≤ kBlockSize - bo2 →
        2 * ptr.length + 1 ≤ f + 1 →
        (kBlockSize - bo2 - hsz r = 0 → 2 * ptr.length + 2 ≤ f + 1) →
        ∃ k, frameTypes (addRecordStep c r m ln
            (fun p2 b2 o2 => addRecordGo c r m ln f p2 false b2 o2) ptr false bo2 []).evs
          = List.replicate k (middleT r) ++ [lastT r] := by
      intro bo2 hbo2 hfuel hextra
      by_cases hfit : ptr.length ≤ kBlockSize - bo2 - hsz r
      · rw [addRecordStep_done c r m ln _ ptr false bo2 [] hfit]
        exact ⟨0, rfl⟩
      · push_neg at hfit
        have hfb : 2 * (ptr.length - (kBlockSize - bo2 - hsz r)) + 1 ≤ f := by
          rcases Nat.eq_zero_or_pos (kBlockSize - bo2 - hsz r) with hz | hp
          · have := hextra hz; omega
          · omega
        rw [addRecordStep_more c r m ln _ ptr false bo2 [] hfit]
        simp only [if_false, Bool.false_eq_true, emit_s_nil, if_true]
        rw [emit_outs_nil, emit_bo_eq, headerSizeFor_middleT]
        have hrec := ih (ptr.drop (kBlockSize - bo2 - hsz r))
          (bo2 + hsz r + (kBlockSize - bo2 - hsz r))
          (by
            have hbound : bo2 + hsz r + (kBlockSize - bo2 - hsz r) = kBlockSize := by omega
            have hbit : boBit r (bo2 + hsz r + (kBlockSize - bo2 - hsz r)) = 0 := by
              rw [hbound]
              simp only [boBit]
              rw [if_pos (by omega)]
            rw [hbit]
            simp only [List.length_drop]
            omega)
          (by omega)
        obtain ⟨k, hk⟩ := hrec
        refine ⟨k + 1, ?_⟩
        rw [frameTypes_emit_cons, hk]
        simp [List.replicate_succ]
    by_cases hpad : kBlockSize - bo < hsz r
    · have hbit : boBit r bo = 0 := by simp [boBit, hpad]
      by_cases h0 : 0 < kBlockSize - bo
      · rw [addRecordGo_succ_pad_ok c r m ln f ptr false bo [] hpad h0 rfl]
        have hs := hstep 0 (by omega) (by omega) (by intro hc; omega)
        obtain ⟨k, hk⟩ := hs
        exact ⟨k, by rw [← hk]; rfl⟩
      · rw [addRecordGo_succ_pad0 c r m ln f ptr false bo [] hpad (by omega)]
        exact hstep 0 (by omega) (by omega) (by intro hc; omega)
    · have hbit : boBit r bo = 1 := by simp [boBit, hpad]
      rw [addRecordGo_succ_nopad c r m ln f ptr false bo [] hpad]
      exact hstep bo (by omega) (by omega) (by intro hc; omega)

lemma frameTypes_head (c : Nat → List Nat → Nat) (r m : Bool) (ln : Nat)
    (fuel : Nat) (ptr : List Nat) (bo : Nat)
    (hf : 2 * ptr.length + 1 + boBit r bo ≤ fuel) :
    frameTypes (addRecordGo c r m ln fuel ptr true bo []).evs = [fullT r]
    ∨ ∃ k, frameTypes (addRecordGo c r m ln fuel ptr true bo []).evs
        = firstT r :: (List.replicate k (middleT r) ++ [lastT r]) := by
  have h7 := hsz_bounds r
  have hkb : kBlockSize = 32768 := rfl
  cases fuel with
  | zero => exact absurd hf (by omega)
  | succ f =>
    have hstep : ∀ (bo2 : Nat),
        hsz r ≤ kBlockSize - bo2 →
        2 * ptr.length + 1 ≤ f + 1 →
        (kBlockSize - bo2 - hsz r = 0 → 2 * ptr.length + 2 ≤ f + 1) →
        (frameTypes (addRecordStep c r m ln
            (fun p2 b2 o2 => addRecordGo c r m ln f p2 false b2 o2) ptr true bo2 []).evs
          = [fullT r]
        ∨ ∃ k, frameTypes (addRecordStep c r m ln
            (fun p2 b2 o2 => addRecordGo c r m ln f p2 false b2 o2) ptr true bo2 []).evs
          = firstT r :: (List.replicate k (middleT r) ++ [lastT r])) := by
      intro bo2 hbo2 hfuel hextra
      by_cases hfit : ptr.length ≤ kBlockSize - bo2 - hsz r
      · left
        rw [addRecordStep_done c r m ln _ ptr true bo2 [] hfit]
        rfl
      · right
        push_neg at hfit
        have hfb : 2 * (ptr.length - (kBlockSize - bo2 - hsz r)) + 1 ≤ f := by
          rcases Nat.eq_zero_or_pos (kBlockSize - bo2 - hsz r) with hz | hp
          · have := hextra hz; omega
          · omega
        rw [addRecordStep_more c r m ln _ ptr true bo2 [] hfit]
        simp only [if_true, emit_s_nil]
        rw [emit_outs_nil, emit_bo_eq, headerSizeFor_firstT]
        have hrec := frameTypes_tail c r m ln f (ptr.drop (kBlockSize - bo2 - hsz r))
          (bo2 + hsz r + (kBlockSize - bo2 - hsz r))
          (by
            have hbound : bo2 + hsz r + (kBlockSize - bo2 - hsz r) = kBlockSize := by omega
            have hbit : boBit r (bo2 + hsz r + (kBlockSize - bo2 - hsz r)) = 0 := by
              rw [hbound]
              simp only [boBit]
              rw [if_pos (by omega)]
            rw [hbit]
            simp only [List.length_drop]
            omega)
          (by omega)
        obtain ⟨k, hk⟩ := hrec
        refine ⟨k, ?_⟩
        rw [frameTypes_emit_cons, hk]
    by_cases hpad : kBlockSize - bo < hsz r
    · have hbit : boBit r bo = 0 := by simp [boBit, hpad]
      by_cases h0 : 0 < kBlockSize - bo
      · rw [addRecordGo_succ_pad_ok c r m ln f ptr true bo [] hpad h0 rfl]
        have hs := hstep 0 (by omega) (by omega) (by intro hc; omega)
        rcases hs with h1 | ⟨k, hk⟩
        · exact Or.inl (by rw [← h1]; rfl)
        · exact Or.inr ⟨k, by rw [← hk]; rfl⟩
      · rw [addRecordGo_succ_pad0 c r m ln f ptr true bo [] hpad (by omega)]
        exact hstep 0 (by omega) (by omega) (by intro hc; omega)
    · have hbit : boBit r bo = 1 := by simp [boBit, hpad]
      rw [addRecordGo_succ_nopad c r m ln f ptr true bo [] hpad]
      exact hstep bo (by omega) (by omega) (by intro hc; omega)

lemma padAdj_nil : PadAdj [] := by
  intro i bo2 bs h
  simp at h

lemma padAdj_cons (x : WalEv) (l : List WalEv)
    (hx : ∀ bo2 bs, x = .padWrite bo2 bs true →
      ∃ t n hd p a b cc, l.get? 0 = some (.frame 0 t n hd p a b cc))
    (hl : PadAdj l) : PadAdj (x :: l) := by
  intro i bo2 bs h
  cases i with
  | zero =>
    simp only [List.get?_cons_zero, Option.some_inj] at h
    exact hx bo2 bs h
  | succ j =>
    simp only [List.get?_cons_succ] at h ⊢
    exact hl j bo2 bs h

lemma addRecord_evs_inv (c : Nat → List Nat → Nat) (r m : Bool) (ln : Nat) :
    ∀ fuel (ptr : List Nat) (first : Bool) (bo : Nat) (outs : List Bool),
      bo ≤ kBlockSize →
      (∀ ev ∈ (addRecordGo c r m ln fuel ptr first bo outs).evs, PadOk r ev ∧ FrameOk r ev)
      ∧ PadAdj (addRecordGo c r m ln fuel ptr first bo outs).evs := by
  intro fuel
  induction fuel with
  | zero =>
    intro ptr first bo outs _
    exact ⟨by intro ev h; simp [addRecordGo] at h, by rw [addRecordGo]; exact padAdj_nil⟩
  | succ f ih =>
    intro ptr first bo outs hbo
    have h7 := hsz_bounds r
    have hkb : kBlockSize = 32768 := rfl
    have hstep : ∀ (bo2 : Nat) (outs2 : List Bool), hsz r ≤ kBlockSize - bo2 →
        (∀ ev ∈ (addRecordStep c r m ln
            (fun p2 b2 o2 => addRecordGo c r m ln f p2 false b2 o2) ptr first bo2 outs2).evs,
          PadOk r ev ∧ FrameOk r ev)
        ∧ PadAdj (addRecordStep c r m ln
            (fun p2 b2 o2 => addRecordGo c r m ln f p2 false b2 o2) ptr first bo2 outs2).evs
        ∧ ∃ t n hd p a b cc rest,
            (addRecordStep c r m ln
              (fun p2 b2 o2 => addRecordGo c r m ln f p2 false b2 o2) ptr first bo2 outs2).evs
            = .frame bo2 t n hd p a b cc :: rest := by
      intro bo2 outs2 hbo2
      by_cases hfit : ptr.length ≤ kBlockSize - bo2 - hsz r
      · rw [addRecordStep_done c r m ln _ ptr first bo2 outs2 hfit]
        obtain ⟨hdr, hOk, pOk, flOk, hev⟩ := emit_ev_eq c ln m
          (if first then fullT r else lastT r) ptr ptr.length bo2 outs2
        rw [hev]
        refine ⟨?_, ?_, ?_⟩
        · intro ev h
          simp only [List.mem_singleton] at h
          subst h
          exact ⟨trivial, by simp only [FrameOk]; omega⟩
        · exact padAdj_cons _ _ (by intro b2 bs hx; exact absurd hx (by simp)) padAdj_nil
        · exact ⟨_, _, _, _, _, _, _, [], rfl⟩
      · push_neg at hfit
        rw [addRecordStep_more c r m ln _ ptr first bo2 outs2 hfit]
        obtain ⟨hdr, hOk, pOk, flOk, hev⟩ := emit_ev_eq c ln m
          (if first then firstT r else middleT r) ptr (kBlockSize - bo2 - hsz r) bo2 outs2
        have hframe : FrameOk r (WalEv.frame bo2 (if first then firstT r else middleT r)
            (kBlockSize - bo2 - hsz r) hdr ptr hOk pOk flOk) := by
          simp only [FrameOk]; omega
        have hboN : (emit_physical_record c ln m (if first then firstT r else middleT r) ptr
            (kBlockSize - bo2 - hsz r) bo2 outs2).bo ≤ kBlockSize := by
          rw [emit_bo_eq]
          have hx : headerSizeFor (if first then firstT r else middleT r) = hsz r := by
            cases first
            · simp [headerSizeFor_middleT]
            · simp [headerSizeFor_firstT]
          rw [hx]
          omega
        by_cases hok : (emit_physical_record c ln m (if first then firstT r else middleT r) ptr
            (kBlockSize - bo2 - hsz r) bo2 outs2).s.is_ok
        · simp only [hok, if_true]
          obtain ⟨hmem, hadj⟩ := ih (ptr.drop (kBlockSize - bo2 - hsz r)) false _ _ hboN
          rw [hev]
          refine ⟨?_, ?_, ?_⟩
          · intro ev h
            rcases List.mem_cons.mp h with h1 | h2
            · subst h1; exact ⟨trivial, hframe⟩
            · exact hmem ev h2
          · exact padAdj_cons _ _ (by intro b2 bs hx; exact absurd hx (by simp)) hadj
          · exact ⟨_, _, _, _, _, _, _, _, rfl⟩
        · simp only [hok, Bool.false_eq_true, if_false]
          rw [hev]
          refine ⟨?_, ?_, ?_⟩
          · intro ev h
            simp only [List.mem_singleton] at h
            subst h
            exact ⟨trivial, hframe⟩
          · exact padAdj_cons _ _ (by intro b2 bs hx; exact absurd hx (by simp)) padAdj_nil
          · exact ⟨_, _, _, _, _, _, _, [], rfl⟩
    by_cases hpad : kBlockSize - bo < hsz r
    · by_cases h0 : 0 < kBlockSize - bo
      · cases hto : (takeOut outs).1
        · rw [addRecordGo_succ_pad_fail c r m ln f ptr first bo outs hpad h0 hto]
          refine ⟨?_, ?_⟩
          · intro ev h
            simp only [List.mem_singleton] at h
            subst h
            exact ⟨⟨rfl, h0, hpad⟩, trivial⟩
          · exact padAdj_cons _ _ (by intro b2 bs hx; exact absurd hx (by simp)) padAdj_nil
        · rw [addRecordGo_succ_pad_ok c r m ln f ptr first bo outs hpad h0 hto]
          obtain ⟨hmem, hadj, t, n, hd, p, a, b2, cc, rest, hshape⟩ :=
            hstep 0 (takeOut outs).2 (by omega)
          refine ⟨?_, ?_⟩
          · intro ev h
            rcases List.mem_cons.mp h with h1 | h2
            · subst h1
              exact ⟨⟨rfl, h0, hpad⟩, trivial⟩
            · exact hmem ev h2
          · refine padAdj_cons _ _ ?_ hadj
            intro b3 bs _
            rw [hshape]
            exact ⟨t, n, hd, p, a, b2, cc, rfl⟩
      · rw [addRecordGo_succ_pad0 c r m ln f ptr first bo outs hpad (by omega)]
        obtain ⟨hmem, hadj, _⟩ := hstep 0 outs (by omega)
        exact ⟨hmem, hadj⟩
    · rw [addRecordGo_succ_nopad c r m ln f ptr first bo outs hpad]
      obtain ⟨hmem, hadj, _⟩ := hstep bo outs (by omega)
      exact ⟨hmem, hadj⟩

lemma addRecordGo_fueled (c : Nat → List Nat → Nat) (r m : Bool) (ln : Nat) :
    ∀ fuel (ptr : List Nat) (first : Bool) (bo : Nat) (outs : List Bool),
      2 * ptr.length + 1 + boBit r bo ≤ fuel →
      (addRecordGo c r m ln fuel ptr first bo outs).fueled = true := by
  intro fuel
  induction fuel with
  | zero => intro ptr first bo outs h; exact absurd h (by omega)
  | succ f ih =>
    intro ptr first bo outs hf
    have h7 := hsz_bounds r
    have hkb : kBlockSize = 32768 := rfl
    have hstep : ∀ (bo2 : Nat) (outs2 : List Bool),
        hsz r ≤ kBlockSize - bo2 →
        2 * ptr.length + 1 ≤ f + 1 →
        (kBlockSize - bo2 - hsz r = 0 → 2 * ptr.length + 2 ≤ f + 1) →
        (addRecordStep c r m ln
            (fun p2 b2 o2 => addRecordGo c r m ln f p2 false b2 o2) ptr first bo2 outs2).fueled
          = true := by
      intro bo2 outs2 hbo2 hfuel hextra
      by_cases hfit : ptr.length ≤ kBlockSize - bo2 - hsz r
      · rw [addRecordStep_done c r m ln _ ptr first bo2 outs2 hfit]
      · push_neg at hfit
        have hfb : 2 * (ptr.length - (kBlockSize - bo2 - hsz r)) + 1 ≤ f := by
          rcases Nat.eq_zero_or_pos (kBlockSize - bo2 - hsz r) with hz | hp
          · have := hextra hz; omega
          · omega
        rw [addRecordStep_more c r m ln _ ptr first bo2 outs2 hfit]
        by_cases hok : (emit_physical_record c ln m (if first then firstT r else middleT r) ptr
            (kBlockSize - bo2 - hsz r) bo2 outs2).s.is_ok
        · simp only [hok, if_true]
          apply ih
          rw [emit_bo_eq]
          have hx : headerSizeFor (if first then firstT r else middleT r) = hsz r := by
            cases first
            · simp [headerSizeFor_middleT]
            · simp [headerSizeFor_firstT]
          rw [hx]
          have hbound : bo2 + hsz r + (kBlockSize - bo2 - hsz r) = kBlockSize := by omega
          have hbit : boBit r (bo2 + hsz r + (kBlockSize - bo2 - hsz r)) = 0 := by
            rw [hbound]
            simp only [boBit]
            rw [if_pos (by omega)]
          rw [hbit]
          simp only [List.length_drop]
          omega
        · simp only [hok, Bool.false_eq_true, if_false]
    by_cases hpad : kBlockSize - bo < hsz r
    · have hbit : boBit r bo = 0 := by simp [boBit, hpad]
      by_cases h0 : 0 < kBlockSize - bo
      · cases hto : (takeOut outs).1
        · rw [addRecordGo_succ_pad_fail c r m ln f ptr first bo outs hpad h0 hto]
        · rw [addRecordGo_succ_pad_ok c r m ln f ptr first bo outs hpad h0 hto]
          exact hstep 0 (takeOut outs).2 (by omega) (by omega) (by intro hc; omega)
      · rw [addRecordGo_succ_pad0 c r m ln f ptr first bo outs hpad (by omega)]
        exact hstep 0 outs (by omega) (by omega) (by intro hc; omega)
    · have hbit : boBit r bo = 1 := by simp [boBit, hpad]
      rw [addRecordGo_succ_nopad c r m ln f ptr first bo outs hpad]
      exact hstep bo outs (by omega) (by omega) (by intro hc; omega)

lemma add_record_fueled (c : Nat → List Nat → Nat) (r m : Bool) (ln : Nat)
    (payload : List Nat) (bo : Nat) (outs : List Bool) :
    (add_record c r m ln payload bo outs).fueled = true := by
  rw [add_record]
  exact addRecordGo_fueled c r m ln _ payload true bo outs (by have := boBit_le r bo; omega)

lemma add_record_nil_done (c : Nat → List Nat → Nat) (r m : Bool) (ln : Nat)
    (payload : List Nat) (bo : Nat)
    (hno : hsz r ≤ kBlockSize - bo)
    (hfit : payload.length ≤ kBlockSize - bo - hsz r) :
    (add_record c r m ln payload bo []).bo = bo + hsz r + payload.length := by
  rw [add_record, show 2 * payload.length + 2 = 2 * payload.length + 1 + 1 from rfl,
    addRecordGo_succ_nopad c r m ln (2 * payload.length + 1) payload true bo [] (by omega),
    addRecordStep_done c r m ln _ payload true bo [] hfit]
  show (emit_physical_record c ln m (if true then fullT r else lastT r)
    payload payload.length bo []).bo = _
  rw [emit_bo_eq]
  simp only [if_true]
  rw [headerSizeFor_fullT]

end Cibo

namespace Cibo

/-! ## Helper lemmas about the buffered file writer and the posix primitives -/

lemma growGo_noop (env : FileEnv) (left maxb : Nat) (f cap : Nat) (buf : AlignedBuffer)
    (h : ¬ cap < maxb) : growGo env left maxb f cap buf = buf := by
  cases f with
  | zero => rfl
  | succ g =>
    rw [show g + 1 = Nat.succ g from rfl, growGo.eq_2]
    rw [if_neg h]

lemma write_buffered_preserves (st : WritableFileWriter) (env : FileEnv)
    (d : List Nat) (sz : Nat) (s : State) (st2 : WritableFileWriter) (env2 : FileEnv)
    (h : write_buffered st env d sz = some (s, st2, env2)) :
    st2.last_sync_size_ = st.last_sync_size_ ∧ st2.filesize_ = st.filesize_
    ∧ st2.bytes_per_sync_ = st.bytes_per_sync_ := by
  by_cases hd : env.useDirect
  · simp only [write_buffered, hd, if_true] at h
    by_cases hz : sz = 0
    · simp only [hz, eq_self_iff_true, if_true, Option.some_inj, Prod.mk.injEq] at h
      obtain ⟨h1, h2, h3⟩ := h
      subst h2
      simp
    · rw [if_neg hz] at h
      by_cases hb : (takeOut env.outs).1
      · rw [if_pos hb] at h
        simp only [Option.some_inj, Prod.mk.injEq] at h
        obtain ⟨h1, h2, h3⟩ := h
        subst h2
        simp [AlignedBuffer.size]
      · rw [if_neg hb] at h
        simp only [Option.some_inj, Prod.mk.injEq] at h
        obtain ⟨h1, h2, h3⟩ := h
        subst h2
        simp
  · simp [write_buffered, hd] at h

lemma write_direct_preserves (st : WritableFileWriter) (env : FileEnv)
    (s : State) (st2 : WritableFileWriter) (env2 : FileEnv)
    (h : write_direct st env = some (s, st2, env2)) :
    st2.last_sync_size_ = st.last_sync_size_ ∧ st2.filesize_ = st.filesize_
    ∧ st2.bytes_per_sync_ = st.bytes_per_sync_ := by
  by_cases hd : !env.useDirect
  · simp [write_direct, hd] at h
  · simp only [write_direct, hd, Bool.false_eq_true, if_false] at h
    by_cases ha : st.next_write_offset_ % st.buf_.get_alignment ≠ 0
    · simp [ha] at h
    · rw [if_neg ha] at h
      by_cases hb : (takeOut env.outs).1
      · rw [if_pos hb] at h
        simp only [Option.some_inj, Prod.mk.injEq] at h
        obtain ⟨h1, h2, h3⟩ := h
        subst h2
        simp
      · rw [if_neg hb] at h
        simp only [Option.some_inj, Prod.mk.injEq] at h
        obtain ⟨h1, h2, h3⟩ := h
        subst h2
        simp

lemma flushTail_sync (st1 : WritableFileWriter) (env1 : FileEnv) (res : FlushRes)
    (h : flushTail st1 env1 = some res) :
    st1.last_sync_size_ ≤ res.st.last_sync_size_
    ∧ (∀ o nb, res.sync = some (o, nb) →
        o = st1.last_sync_size_
        ∧ o + nb = res.st.last_sync_size_
        ∧ 1048576 < st1.filesize_
        ∧ o + nb ≤ (st1.filesize_ - 1048576) - ((st1.filesize_ - 1048576) % 4096)) := by
  simp only [flushTail] at h
  by_cases hb : (takeOut env1.outs).1
  · simp only [hb, Bool.not_true, Bool.false_eq_true, if_false] at h
    by_cases hc : (!env1.useDirect && decide (0 < st1.bytes_per_sync_)) = true
    · rw [if_pos hc] at h
      by_cases hf : 1048576 < st1.filesize_
      · rw [if_pos hf] at h
        by_cases ha : st1.filesize_ - 1048576 - (st1.filesize_ - 1048576) % 4096
            < st1.last_sync_size_
        · rw [if_pos ha] at h
          exact absurd h (by simp)
        · rw [if_neg ha] at h
          push_neg at ha
          by_cases hgo : 0 < st1.filesize_ - 1048576 - (st1.filesize_ - 1048576) % 4096
              ∧ st1.bytes_per_sync_ ≤ st1.filesize_ - 1048576
                - (st1.filesize_ - 1048576) % 4096 - st1.last_sync_size_
          · rw [if_pos hgo] at h
            simp only [Option.some_inj] at h
            subst h
            refine ⟨?_, ?_⟩
            · show st1.last_sync_size_ ≤ st1.filesize_ - 1048576
                - (st1.filesize_ - 1048576) % 4096
              exact ha
            · intro o nb hs
              simp only [Option.some_inj, Prod.mk.injEq] at hs
              obtain ⟨ho, hnb⟩ := hs
              subst ho
              subst hnb
              refine ⟨rfl, Nat.add_sub_cancel' ha, hf, ?_⟩
              exact le_of_eq (Nat.add_sub_cancel' ha)
          · rw [if_neg hgo] at h
            simp only [Option.some_inj] at h
            subst h
            exact ⟨le_refl _, by intro o nb hs; simp at hs⟩
      · rw [if_neg hf] at h
        simp only [Option.some_inj] at h
        subst h
        exact ⟨le_refl _, by intro o nb hs; simp at hs⟩
    · rw [if_neg hc] at h
      simp only [Option.some_inj] at h
      subst h
      exact ⟨le_refl _, by intro o nb hs; simp at hs⟩
  · simp only [hb, Bool.not_false, if_true] at h
    simp only [Option.some_inj] at h
    subst h
    exact ⟨le_refl _, by intro o nb hs; simp at hs⟩

lemma write_buffered_none (st : WritableFileWriter) (env : FileEnv) (d : List Nat)
    (sz : Nat) (h : env.useDirect = false) : write_buffered st env d sz = none := by
  simp [write_buffered, h]

lemma append_bypass_none (st : WritableFileWriter) (env : FileEnv) (slice : List Nat)
    (hd : env.useDirect = false)
    (hdata : st.buf_.data = [])
    (hmax : ¬ st.buf_.get_capacity < st.max_buffer_size_)
    (hbig : st.buf_.get_capacity < slice.length) :
    append st env slice = none := by
  have hsz : st.buf_.get_current_size = 0 := by
    simp [AlignedBuffer.get_current_size, hdata]
  have hgrow : growGo env slice.length st.max_buffer_size_ (st.max_buffer_size_ + 2)
      st.buf_.get_capacity st.buf_ = st.buf_ := growGo_noop env _ _ _ _ _ hmax
  have hble : ¬ slice.length ≤ st.buf_.get_capacity := not_le.mpr hbig
  simp only [append, hsz, hd, Nat.sub_zero, hgrow, hbig, hble, write_buffered,
    ite_self, if_true, if_false, decide_eq_true_eq, Bool.not_false, Bool.true_and,
    decide_True, decide_False, Bool.false_or, lt_irrefl, AlignedBuffer.get_current_size,
    hdata, List.length_nil, Bool.false_eq_true]

lemma write_direct_fail (st : WritableFileWriter) (env : FileEnv) (rest : List Bool)
    (henv : env.outs = false :: rest) (hdir : env.useDirect = true)
    (hnwo : st.next_write_offset_ % st.buf_.get_alignment = 0) :
    ∃ st2, write_direct st env = some (.ioError, st2, { env with outs := rest })
      ∧ st2.filesize_ = st.filesize_ := by
  simp only [write_direct, hdir, Bool.not_true, Bool.false_eq_true, if_false]
  rw [if_neg (by simp [hnwo])]
  rw [henv]
  simp only [takeOut, Bool.false_eq_true, if_false]
  exact ⟨_, rfl, rfl⟩

lemma flush_direct_fail (st : WritableFileWriter) (env : FileEnv) (rest : List Bool)
    (henv : env.outs = false :: rest) (hdir : env.useDirect = true)
    (hnwo : st.next_write_offset_ % st.buf_.get_alignment = 0)
    (hszpos : 0 < st.buf_.get_current_size) :
    ∃ st2, flush st env = some ⟨.ioError, st2, { env with outs := rest }, none⟩
      ∧ st2.filesize_ = st.filesize_ := by
  obtain ⟨st2, hwd, hfs⟩ := write_direct_fail st env rest henv hdir hnwo
  refine ⟨st2, ?_, hfs⟩
  simp only [flush, hszpos, if_true, hdir, hwd]
  rfl

lemma appendLoopGo_first_flush_fail (slice : List Nat) (f : Nat)
    (st1 : WritableFileWriter) (env : FileEnv) (rest : List Bool)
    (henv : env.outs = false :: rest) (hdir : env.useDirect = true)
    (hdata : st1.buf_.data = [])
    (hbig : st1.buf_.get_capacity < slice.length)
    (hpos : 0 < st1.buf_.get_capacity)
    (hnwo : st1.next_write_offset_ % st1.buf_.get_alignment = 0) :
    ∃ st3, appendLoopGo slice (f + 1) 0 slice.length st1 env
        = some (.ioError, st3, { env with outs := rest })
      ∧ st3.filesize_ = st1.filesize_ := by
  have hlen0 : ¬ slice.length = 0 := by
    intro hx
    rw [hx] at hbig
    omega
  rw [show f + 1 = Nat.succ f from rfl, appendLoopGo.eq_2]
  rw [if_neg hlen0]
  have hmin : min (st1.buf_.get_capacity - st1.buf_.data.length) slice.length
      = st1.buf_.get_capacity := by
    rw [hdata]
    simp only [List.length_nil, Nat.sub_zero]
    exact min_eq_left (le_of_lt hbig)
  simp only [AlignedBuffer.append, AlignedBuffer.get_capacity] at hmin ⊢
  rw [hmin, hdata]
  have hleft1 : 0 < slice.length - st1.buf_.get_capacity := by
    simp only [AlignedBuffer.get_capacity] at hbig ⊢
    omega
  simp only [AlignedBuffer.get_capacity] at hleft1
  rw [if_pos hleft1]
  have hflush := flush_direct_fail
    { st1 with buf_ := { st1.buf_ with
        data := [] ++ (slice.drop 0).take st1.buf_.capacity_ } }
    env rest henv hdir (by simpa [AlignedBuffer.get_alignment] using hnwo)
    (by
      simp only [AlignedBuffer.get_current_size, List.nil_append, List.drop_zero,
        List.length_take]
      have hcap : 0 < st1.buf_.capacity_ := by
        simpa [AlignedBuffer.get_capacity] using hpos
      have hlen1 : 0 < slice.length := by omega
      simp only [lt_min_iff]
      exact ⟨hcap, hlen1⟩)
  obtain ⟨st2, hfl, hfs⟩ := hflush
  rw [hfl]
  simp only [State.is_ok, Bool.false_eq_true, if_false]
  exact ⟨st2, rfl, hfs⟩

lemma append_swallows_flush_error (st : WritableFileWriter) (env : FileEnv)
    (slice : List Nat) (rest : List Bool)
    (henv : env.outs = false :: rest) (hdir : env.useDirect = true)
    (hdata : st.buf_.data = [])
    (hmax : ¬ st.buf_.get_capacity < st.max_buffer_size_)
    (hbig : st.buf_.get_capacity < slice.length)
    (hpos : 0 < st.buf_.get_capacity)
    (hnwo : st.next_write_offset_ % st.buf_.get_alignment = 0) :
    ∃ st3 env3, append st env slice = some ⟨.ok, st3, env3⟩
      ∧ st3.filesize_ = st.filesize_ := by
  have hsz : st.buf_.get_current_size = 0 := by
    simp [AlignedBuffer.get_current_size, hdata]
  have hgrow : growGo env slice.length st.max_buffer_size_ (st.max_buffer_size_ + 2)
      st.buf_.get_capacity st.buf_ = st.buf_ := growGo_noop env _ _ _ _ _ hmax
  simp only [append, hsz, hdir, Nat.sub_zero, hgrow, hbig, ite_self, if_true,
    Bool.not_true, Bool.false_and, Bool.false_eq_true, if_false, Bool.true_or]
  rw [show 2 * slice.length + 2 = 2 * slice.length + 1 + 1 from rfl]
  have hl := appendLoopGo_first_flush_fail slice (2 * slice.length + 1)
    { st with pending_sync_ := true } env rest henv hdir hdata hbig hpos hnwo
  obtain ⟨st3, hloop, hfs⟩ := hl
  rw [hloop]
  simp only [State.is_ok, Bool.false_eq_true, if_false]
  exact ⟨st3, { env with outs := rest }, rfl, hfs⟩

lemma paGo_success (ops : List Pw) : ∀ (l off fs : Nat), paWF ops l = true →
    (paGo ops l off).2 = .success fs → fs = off + l := by
  induction ops with
  | nil =>
    intro l off fs _ h
    cases l with
    | zero => simp [paGo] at h; omega
    | succ k => simp [paGo] at h
  | cons op ops ih =>
    intro l off fs hwf h
    cases l with
    | zero => simp [paGo] at h; omega
    | succ k =>
      cases op with
      | wrote n =>
        by_cases hn : n = 0
        · subst hn
          simp [paGo] at h
        · simp only [paGo, hn, if_false] at h
          simp only [paWF, Bool.and_eq_true, decide_eq_true_eq] at hwf
          obtain ⟨⟨h1, h2⟩, h3⟩ := hwf
          have := ih (k + 1 - n) (off + n) fs h3 h
          omega
      | interrupted =>
        simp only [paGo] at h
        simp only [paWF] at hwf
        have := ih (k + 1) off fs hwf h
        omega
      | failed =>
        simp [paGo] at h

lemma paGo_no_failed (ops : List Pw) : ∀ (l off : Nat), Pw.failed ∉ ops →
    (paGo ops l off).2 ≠ .ioError := by
  induction ops with
  | nil =>
    intro l off _
    cases l with
    | zero => simp [paGo]
    | succ k => simp [paGo]
  | cons op ops ih =>
    intro l off hnf
    have hnf1 : Pw.failed ∉ ops := by
      intro hx
      exact hnf (List.mem_cons_of_mem _ hx)
    cases l with
    | zero => simp [paGo]
    | succ k =>
      cases op with
      | wrote n =>
        by_cases hn : n = 0
        · subst hn
          simp [paGo]
        · simp only [paGo, hn, if_false]
          exact ih (k + 1 - n) (off + n) hnf1
      | interrupted =>
        simp only [paGo]
        exact ih (k + 1) off hnf1
      | failed =>
        exact absurd (List.mem_cons_self _ _) hnf

lemma paGo_trace_head (ops : List Pw) (l off p q : Nat)
    (h : (paGo ops l off).1.get? 0 = some (p, q)) : p = off ∧ q = l := by
  cases l with
  | zero => simp [paGo] at h
  | succ k =>
    cases ops with
    | nil => simp [paGo] at h
    | cons op ops =>
      cases op with
      | wrote n =>
        by_cases hn : n = 0
        · subst hn
          simp [paGo] at h
          exact ⟨h.1.symm, h.2.symm⟩
        · simp only [paGo, hn, if_false, List.get?_cons_zero, Option.some_inj,
            Prod.mk.injEq] at h
          exact ⟨h.1.symm, h.2.symm⟩
      | interrupted =>
        simp only [paGo, List.get?_cons_zero, Option.some_inj, Prod.mk.injEq] at h
        exact ⟨h.1.symm, h.2.symm⟩
      | failed =>
        simp only [paGo, List.get?_cons_zero, Option.some_inj, Prod.mk.injEq] at h
        exact ⟨h.1.symm, h.2.symm⟩

lemma paGo_trace_adj (ops : List Pw) : ∀ (l off i p q p2 q2 : Nat),
    (paGo ops l off).1.get? i = some (p, q) →
    (paGo ops l off).1.get? (i + 1) = some (p2, q2) →
    (∀ n, ops.get? i = some (.wrote n) → p2 = p + n ∧ q2 = q - n)
    ∧ (ops.get? i = some .interrupted → p2 = p ∧ q2 = q) := by
  induction ops with
  | nil =>
    intro l off i p q p2 q2 h1 h2
    cases l <;> simp [paGo] at h1
  | cons op ops ih =>
    intro l off i p q p2 q2 h1 h2
    cases l with
    | zero => simp [paGo] at h1
    | succ k =>
      cases op with
      | wrote n0 =>
        by_cases hn : n0 = 0
        · subst hn
          simp only [paGo] at h1 h2
          cases i with
          | zero => simp at h2
          | succ j => simp at h1
        · simp only [paGo, hn, if_false] at h1 h2
          cases i with
          | zero =>
            simp only [List.get?_cons_zero, Option.some_inj, Prod.mk.injEq] at h1
            obtain ⟨hp, hq⟩ := h1
            subst hp
            subst hq
            simp only [List.get?_cons_succ, List.get?_cons_zero] at h2
            obtain ⟨hp2, hq2⟩ := paGo_trace_head ops (k + 1 - n0) (off + n0) p2 q2 h2
            constructor
            · intro n hn2
              simp only [List.get?_cons_zero, Option.some_inj, Pw.wrote.injEq] at hn2
              subst hn2
              exact ⟨hp2, hq2⟩
            · intro hn2
              simp at hn2
          | succ j =>
            simp only [List.get?_cons_succ] at h1 h2 ⊢
            exact ih (k + 1 - n0) (off + n0) j p q p2 q2 h1 h2
      | interrupted =>
        simp only [paGo] at h1 h2
        cases i with
        | zero =>
          simp only [List.get?_cons_zero, Option.some_inj, Prod.mk.injEq] at h1
          obtain ⟨hp, hq⟩ := h1
          subst hp
          subst hq
          simp only [List.get?_cons_succ] at h2
          obtain ⟨hp2, hq2⟩ := paGo_trace_head ops (k + 1) off p2 q2 h2
          constructor
          · intro n hn2
            simp at hn2
          · intro hn2
            exact ⟨hp2, hq2⟩
        | succ j =>
          simp only [List.get?_cons_succ] at h1 h2 ⊢
          exact ih (k + 1) off j p q p2 q2 h1 h2
      | failed =>
        simp only [paGo] at h1 h2
        cases i with
        | zero => simp at h2
        | succ j => simp at h1

end Cibo

namespace Cibo

/-! ## Claim theorems -/

/-- C1: the round-trip claim fails on this code. `emit_physical_record` appends
the whole remaining payload slice while declaring only `fragment_length` bytes
in the header. Concretely: after one 32753-byte record from a fresh block the
writer stands at block offset 32760; `add_record` of the 2-byte payload `[1, 2]`
then emits two frames whose (declared length, payload bytes handed to the
destination) pairs are `(1, 2)` and `(1, 1)` — the first fragment declares 1
byte but writes both — and the file receives 17 bytes where the declared
framing accounts for 16, so no reader of the declared format can reproduce the
record. -/
theorem claim_C1_fragment_overrun :
    (add_record crc32model false false 0 (List.replicate 32753 7) 0 []).bo = 32760
    ∧ ((add_record crc32model false false 0 [1, 2] 32760 []).evs.filterMap fragDecl)
        = [(1, 2), (1, 1)]
    ∧ (fileBytes (add_record crc32model false false 0 [1, 2] 32760 []).evs).length = 17 := by
  refine ⟨?_, by decide, by decide⟩
  have hlen : (List.replicate 32753 (7 : Nat)).length = 32753 := List.length_replicate 32753 7
  rw [add_record_nil_done crc32model false false 0 (List.replicate 32753 7) 0
    (by norm_num [hsz, kHeaderSize, kBlockSize])
    (by rw [hlen]; norm_num [hsz, kHeaderSize, kBlockSize])]
  rw [hlen]
  norm_num [hsz, kHeaderSize]

/-- C2 counterexample: for a legacy `Full` frame with payload `[7]` the stored
4-byte checksum field differs from the claim formula (type seed extended over
the record-type byte, the 2-byte length and the payload): in legacy mode the
code extends the seed over the payload only. Instantiated at the concrete
checksum stand-in `crc32model`. -/
theorem claim_C2_counterexample :
    (emit_physical_record crc32model 0 false .kFullType [7] 1 0 []).ev.hdr.take 4
      ≠ encode_fixed32 (spec_claimed_crc crc32model 0 .kFullType [7] 1) := by
  decide

/-- C2 amended: for every emitted frame the stored header is the 4-byte LE
encoding of `code_crc` followed by the 2-byte length, the type byte and, for
recyclable types, the low 4 log-number bytes — where `code_crc` seeds with
`crc32(0, [type])` and, only in recyclable mode, first extends over header
bytes 4..10 (length, type byte, log number) before extending over the whole
payload vector passed to `emit_physical_record`. -/
theorem claim_C2_amended (crc32 : Nat → List Nat → Nat) (ln : Nat) (mf : Bool)
    (t : RecordType) (ptr : List Nat) (n bo : Nat) (outs : List Bool) :
    (emit_physical_record crc32 ln mf t ptr n bo outs).ev.hdr
      = encode_fixed32 (code_crc crc32 ln t ptr n)
        ++ [n % 256, n / 256 % 256, t.toNat]
        ++ (if t.toNat < RecordType.kRecyclableFullType.toNat then []
            else (encode_fixed64 ln).take 4) := by
  cases t <;>
    simp [emit_physical_record, WalEv.hdr, code_crc, type_crc, encode_fixed32,
      encode_fixed64, RecordType.toNat, kRecyclableHeaderSize, kHeaderSize,
      List.replicate, List.set, List.take, List.drop]

/-- C3: when the very first destination append fails, `add_record([1,2,3])`
stops immediately — exactly one frame emission is attempted, nothing reaches
the file — but the source function returns `()` and the failed `State` is
dropped, so nothing of this is visible to the caller. -/
theorem claim_C3_first_failure_stops :
    (add_record crc32model false false 0 [1, 2, 3] 0 [false]).evs.length = 1
    ∧ fileBytes (add_record crc32model false false 0 [1, 2, 3] 0 [false]).evs = []
    ∧ (add_record crc32model false false 0 [1, 2, 3] 0 [false]).evs.filterMap fragDecl
        = [(3, 3)] := by
  decide

/-- C4: in every `add_record` call started at a block offset within the block,
every zero-pad event writes exactly the (positive, smaller-than-header)
leftover of its block as zeros, every successful pad is immediately followed by
a frame emitted at block offset 0, and every emitted frame satisfies
`block_offset_ + header_size + fragment_length ≤ kBlockSize` — so no frame
header spans a block boundary in the writer accounting. -/
theorem claim_C4_block_framing (c : Nat → List Nat → Nat) (r m : Bool) (ln : Nat)
    (payload : List Nat) (bo : Nat) (outs : List Bool) (hbo : bo ≤ kBlockSize) :
    (∀ bo2 bs ok, WalEv.padWrite bo2 bs ok ∈ (add_record c r m ln payload bo outs).evs →
        bs = List.replicate (kBlockSize - bo2) 0
        ∧ 0 < kBlockSize - bo2 ∧ kBlockSize - bo2 < hsz r)
    ∧ (∀ bo2 t n hd p a b cc,
        WalEv.frame bo2 t n hd p a b cc ∈ (add_record c r m ln payload bo outs).evs →
        bo2 + hsz r + n ≤ kBlockSize)
    ∧ PadAdj (add_record c r m ln payload bo outs).evs := by
  obtain ⟨hmem, hadj⟩ := addRecord_evs_inv c r m ln (2 * payload.length + 2) payload true bo outs hbo
  rw [add_record]
  refine ⟨?_, ?_, hadj⟩
  · intro bo2 bs ok h
    have hp := (hmem _ h).1
    simpa [PadOk] using hp
  · intro bo2 t n hd p a b cc h
    have hp := (hmem _ h).2
    simpa [FrameOk] using hp

/-- C4 witness: the framing invariants evaluated at block offset 32765 (three
bytes left in the block) with payload `[9]`. -/
theorem claim_C4_witness :
    32765 ≤ kBlockSize
    ∧ ((∀ bo2 bs ok,
        WalEv.padWrite bo2 bs ok ∈ (add_record crc32model false false 0 [9] 32765 []).evs →
        bs = List.replicate (kBlockSize - bo2) 0
        ∧ 0 < kBlockSize - bo2 ∧ kBlockSize - bo2 < hsz false)
      ∧ (∀ bo2 t n hd p a b cc,
        WalEv.frame bo2 t n hd p a b cc ∈ (add_record crc32model false false 0 [9] 32765 []).evs →
        bo2 + hsz false + n ≤ kBlockSize)
      ∧ PadAdj (add_record crc32model false false 0 [9] 32765 []).evs) :=
  ⟨by decide, claim_C4_block_framing crc32model false false 0 [9] 32765 [] (by decide)⟩

/-- C5: with an always-succeeding destination, the frame types emitted by one
`add_record` call are exactly the spec classification — one `Full`, or `First`,
`Middle`s, `Last`, in the recyclable variants when the recycle flag is set —
and at the block boundary a payload that exactly fills the remaining space
yields one `Full` frame while one more byte yields `First` then `Last`. -/
theorem claim_C5_fragment_classification (c : Nat → List Nat → Nat) (r m : Bool)
    (ln : Nat) (payload : List Nat) (bo : Nat) (hbo : bo ≤ kBlockSize) :
    (frameTypes (add_record c r m ln payload bo []).evs
        = expectedTypes r (frameTypes (add_record c r m ln payload bo []).evs).length
      ∧ 1 ≤ (frameTypes (add_record c r m ln payload bo []).evs).length)
    ∧ (hsz r ≤ kBlockSize - bo → payload.length = kBlockSize - bo - hsz r →
        frameTypes (add_record c r m ln payload bo []).evs = [fullT r])
    ∧ (hsz r ≤ kBlockSize - bo → payload.length = kBlockSize - bo - hsz r + 1 →
        frameTypes (add_record c r m ln payload bo []).evs = [firstT r, lastT r]) := by
  have h7 := hsz_bounds r
  have hkb : kBlockSize = 32768 := rfl
  refine ⟨?_, ?_, ?_⟩
  · have hh := frameTypes_head c r m ln (2 * payload.length + 2) payload bo
      (by have := boBit_le r bo; omega)
    rw [add_record]
    rcases hh with hfull | ⟨k, hk⟩
    · rw [hfull]
      exact ⟨rfl, by simp⟩
    · rw [hk]
      constructor
      · have hlen : (firstT r :: (List.replicate k (middleT r) ++ [lastT r])).length = k + 2 := by
          simp
        rw [hlen]
        simp [expectedTypes]
      · simp
  · intro hno hlen
    rw [add_record, show 2 * payload.length + 2 = 2 * payload.length + 1 + 1 from rfl,
      addRecordGo_succ_nopad c r m ln (2 * payload.length + 1) payload true bo [] (by omega),
      addRecordStep_done c r m ln _ payload true bo [] (by omega)]
    rfl
  · intro hno hlen
    rw [add_record, show 2 * payload.length + 2 = 2 * payload.length + 1 + 1 from rfl,
      addRecordGo_succ_nopad c r m ln (2 * payload.length + 1) payload true bo [] (by omega),
      addRecordStep_more c r m ln _ payload true bo [] (by omega)]
    simp only [if_true, emit_s_nil]
    rw [emit_outs_nil, emit_bo_eq, headerSizeFor_firstT]
    have hbo2 : bo + hsz r + (kBlockSize - bo - hsz r) = kBlockSize := by omega
    rw [hbo2]
    have hlen2 : (payload.drop (kBlockSize - bo - hsz r)).length = 1 := by
      simp only [List.length_drop]
      omega
    rw [addRecordGo_succ_pad0 c r m ln (2 * payload.length)
      (payload.drop (kBlockSize - bo - hsz r)) false kBlockSize [] (by omega) (by omega)]
    rw [addRecordStep_done c r m ln _ (payload.drop (kBlockSize - bo - hsz r)) false 0 []
      (by rw [hlen2]; omega)]
    rfl

/-- C5 witness: the classification evaluated at block offset 32760 (one byte of
fragment space left) with payload `[5]`. -/
theorem claim_C5_witness :
    32760 ≤ kBlockSize
    ∧ ((frameTypes (add_record crc32model false false 0 [5] 32760 []).evs
        = expectedTypes false
            (frameTypes (add_record crc32model false false 0 [5] 32760 []).evs).length
      ∧ 1 ≤ (frameTypes (add_record crc32model false false 0 [5] 32760 []).evs).length)
    ∧ (hsz false ≤ kBlockSize - 32760 → ([5] : List Nat).length = kBlockSize - 32760 - hsz false →
        frameTypes (add_record crc32model false false 0 [5] 32760 []).evs = [fullT false])
    ∧ (hsz false ≤ kBlockSize - 32760 →
        ([5] : List Nat).length = kBlockSize - 32760 - hsz false + 1 →
        frameTypes (add_record crc32model false false 0 [5] 32760 []).evs
          = [firstT false, lastT false])) :=
  ⟨by decide, claim_C5_fragment_classification crc32model false false 0 [5] 32760 (by decide)⟩

/-- C6: `WritableFileWriter::append` returns `State::ok()` unconditionally.
From a freshly constructed direct-I/O writer, appending 65537 bytes with the
underlying positioned write failing, the internal flush fails and `filesize_`
stays 0 — yet the result handed to the caller is `State.ok`, so the failure is
swallowed instead of surfaced. -/
theorem claim_C6_append_swallows_error :
    ∃ st3 env3, append freshWriter ⟨true, [false]⟩ (List.replicate 65537 1)
        = some ⟨State.ok, st3, env3⟩
      ∧ st3.filesize_ = 0 := by
  have h := append_swallows_flush_error freshWriter ⟨true, [false]⟩
    (List.replicate 65537 1) [] rfl rfl rfl
    (by norm_num [freshWriter, freshBuf, AlignedBuffer.get_capacity])
    (by rw [List.length_replicate]
        norm_num [freshWriter, freshBuf, AlignedBuffer.get_capacity])
    (by norm_num [freshWriter, freshBuf, AlignedBuffer.get_capacity])
    (by norm_num [freshWriter, freshBuf, AlignedBuffer.get_alignment])
  exact h

/-- C7: the bypass path of `append` (buffered mode, data larger than the whole
buffer) runs into `write_buffered`, whose `assert!(use_direct_io())` is false
on every buffered-mode call — the assertion fires (modelled as `none`) instead
of the claimed direct one-pass write. Appending 65537 bytes to a fresh
buffered-mode writer panics. -/
theorem claim_C7_bypass_assertion_fires :
    append freshWriter ⟨false, []⟩ (List.replicate 65537 1) = none := by
  apply append_bypass_none
  · rfl
  · rfl
  · norm_num [freshWriter, freshBuf, AlignedBuffer.get_capacity]
  · rw [List.length_replicate]
    norm_num [freshWriter, freshBuf, AlignedBuffer.get_capacity]

/-- C8: every `range_sync` a `flush` issues starts at the previous
`last_sync_size_` and ends exactly at `filesize_ - 1 MiB` rounded down to
4 KiB — so it covers only bytes strictly below that bound, never the final
1 MiB — and `last_sync_size_` never decreases across the flush, which is the
only place it changes. -/
theorem claim_C8_sync_exclusion_window (st : WritableFileWriter) (env : FileEnv)
    (res : FlushRes) (h : flush st env = some res) :
    st.last_sync_size_ ≤ res.st.last_sync_size_
    ∧ (∀ o nb, res.sync = some (o, nb) →
        o = st.last_sync_size_
        ∧ o + nb = res.st.last_sync_size_
        ∧ 1048576 < st.filesize_
        ∧ o + nb ≤ (st.filesize_ - 1048576) - ((st.filesize_ - 1048576) % 4096)) := by
  simp only [flush] at h
  by_cases hsz0 : 0 < st.buf_.get_current_size
  · rw [if_pos hsz0] at h
    by_cases hd : env.useDirect
    · rw [if_pos hd] at h
      cases hwd : write_direct st env with
      | none => rw [hwd] at h; exact absurd h (by simp)
      | some trio =>
        obtain ⟨s1, st1, env1⟩ := trio
        rw [hwd] at h
        obtain ⟨hl, hfs, hbps⟩ := write_direct_preserves st env s1 st1 env1 hwd
        by_cases hok : s1.is_ok
        · simp only [hok, if_true] at h
          obtain ⟨h1, h2⟩ := flushTail_sync st1 env1 res h
          refine ⟨by rw [← hl]; exact h1, ?_⟩
          intro o nb hs
          obtain ⟨a1, a2, a3, a4⟩ := h2 o nb hs
          exact ⟨by rw [← hl]; exact a1, a2, by rw [← hfs]; exact a3, by rw [← hfs]; exact a4⟩
        · simp only [hok, Bool.false_eq_true, if_false] at h
          simp only [Option.some_inj] at h
          subst h
          exact ⟨le_of_eq hl.symm, by intro o nb hs; simp at hs⟩
    · rw [if_neg hd] at h
      have hwb : write_buffered st env (st.buf_.read 0 st.buf_.get_current_size)
          st.buf_.get_current_size = none := by
        simp [write_buffered, hd]
      rw [hwb] at h
      exact absurd h (by simp)
  · rw [if_neg hsz0] at h
    obtain ⟨h1, h2⟩ := flushTail_sync st env res h
    exact ⟨h1, h2⟩

/-- C8 witness: a flush of `syncWriter` (3 MiB written, nothing synced,
`bytes_per_sync_ = 4096`) issues `range_sync(0, 2 MiB)` and satisfies the
exclusion and monotonicity properties. -/
theorem claim_C8_witness :
    syncWriter.last_sync_size_ ≤ syncFlushRes.st.last_sync_size_
    ∧ (∀ o nb, syncFlushRes.sync = some (o, nb) →
        o = syncWriter.last_sync_size_
        ∧ o + nb = syncFlushRes.st.last_sync_size_
        ∧ 1048576 < syncWriter.filesize_
        ∧ o + nb ≤ (syncWriter.filesize_ - 1048576)
            - ((syncWriter.filesize_ - 1048576) % 4096)) :=
  claim_C8_sync_exclusion_window syncWriter ⟨false, []⟩ syncFlushRes (by decide)

/-- C9: `PosixWritableFile::positioned_append`, run against a well-formed
`pwrite` oracle: on success the final `filesize_` is the initial offset plus
the data length; if the oracle contains no non-interrupt failure the result is
never an I/O error (EINTR is retried transparently); and consecutive issued
calls resume at the advanced offset with the remaining length after a partial
write, and repeat the same offset and length after an interrupt. -/
theorem claim_C9_positioned_append_retry (ops : List Pw) (data : List Nat) (off : Nat)
    (hwf : paWF ops data.length = true) (hnf : Pw.failed ∉ ops) :
    (∀ fs, (positioned_append ops data off).2 = .success fs → fs = off + data.length)
    ∧ (positioned_append ops data off).2 ≠ .ioError
    ∧ (∀ i p q p2 q2, (positioned_append ops data off).1.get? i = some (p, q) →
        (positioned_append ops data off).1.get? (i + 1) = some (p2, q2) →
        (∀ n, ops.get? i = some (.wrote n) → p2 = p + n ∧ q2 = q - n)
        ∧ (ops.get? i = some .interrupted → p2 = p ∧ q2 = q)) := by
  refine ⟨?_, ?_, ?_⟩
  · intro fs h
    exact paGo_success ops data.length off fs hwf h
  · exact paGo_no_failed ops data.length off hnf
  · intro i p q p2 q2 h1 h2
    exact paGo_trace_adj ops data.length off i p q p2 q2 h1 h2

/-- C9 witness: the interrupted-then-partial oracle `paOpsExample` on a 3-byte
write at offset 10. -/
theorem claim_C9_witness :
    paWF paOpsExample ([5, 6, 7] : List Nat).length = true
    ∧ Pw.failed ∉ paOpsExample
    ∧ ((∀ fs, (positioned_append paOpsExample [5, 6, 7] 10).2 = .success fs →
          fs = 10 + ([5, 6, 7] : List Nat).length)
      ∧ (positioned_append paOpsExample [5, 6, 7] 10).2 ≠ .ioError
      ∧ (∀ i p q p2 q2,
          (positioned_append paOpsExample [5, 6, 7] 10).1.get? i = some (p, q) →
          (positioned_append paOpsExample [5, 6, 7] 10).1.get? (i + 1) = some (p2, q2) →
          (∀ n, paOpsExample.get? i = some (.wrote n) → p2 = p + n ∧ q2 = q - n)
          ∧ (paOpsExample.get? i = some .interrupted → p2 = p ∧ q2 = q))) :=
  ⟨by decide, by decide,
    claim_C9_positioned_append_retry paOpsExample [5, 6, 7] 10 (by decide) (by decide)⟩

/-- C10: `emit_physical_record` advances `block_offset_` by
`header_size + fragment_length` unconditionally; in particular, when the header
append fails nothing is written to the destination and the emission reports an
error, yet the accounting still advances — so after a write error it no longer
matches the bytes actually appended. -/
theorem claim_C10_block_offset_advance (crc32 : Nat → List Nat → Nat) (ln : Nat)
    (mf : Bool) (t : RecordType) (ptr : List Nat) (n bo : Nat) (outs : List Bool) :
    (emit_physical_record crc32 ln mf t ptr n bo outs).bo = bo + headerSizeFor t + n
    ∧ (emit_physical_record crc32 ln mf t ptr n bo (false :: outs)).ev.written = []
    ∧ (emit_physical_record crc32 ln mf t ptr n bo (false :: outs)).s.is_ok = false := by
  refine ⟨?_, ?_, ?_⟩
  · simp only [emit_physical_record, headerSizeFor]
    split <;> rfl
  · simp [emit_physical_record, WalEv.written, takeOut]
  · simp [emit_physical_record, State.is_ok, takeOut]

end Cibo
